import Mathlib

/-!
# Verification of the Streamlit "magic" AST rewriting pass

Shallow embedding of `src/lib/streamlit/magic.py`: a syntax-tree rewriting
pass that turns bare top-level expression statements into explicit calls to
`__streamlit__._transparent_write`, and injects a single
`import streamlit as __streamlit__` at the root of the tree.
-/

namespace Magic

/-- Expression contexts, mirroring `ast.Load` / `ast.Store`. -/
inductive ExprCtx where
  | load
  | store
  deriving DecidableEq, Repr

/-- Import aliases, mirroring `ast.alias(name=..., asname=...)`. -/
structure Alias where
  name : String
  asname : Option String
  deriving DecidableEq, Repr

/-- Expression nodes, mirroring the `ast` expression kinds the pass
inspects (`ast.Call`, `ast.Str`, `ast.Tuple`, `ast.Name`,
`ast.Attribute`) plus representative kinds it never inspects
(`num`, `binOp`, `otherExpr`), which the classifier treats uniformly
through its final `else` branch. -/
inductive Expr where
  | call (func : Expr) (args : List Expr) (keywords : List (Option String × Expr))
      (kwargs : Option Expr) (starargs : Option Expr)
  | str (s : String)
  | tuple (elts : List Expr) (ctx : ExprCtx)
  | name (id : String) (ctx : ExprCtx)
  | attributeExpr (value : Expr) (attr : String) (ctx : ExprCtx)
  | num (n : Int)
  | binOp (left : Expr) (right : Expr)
  | otherExpr

mutual
/-- Statement nodes, mirroring the `ast` statement kinds the walker
dispatches on (`ast.Expr`, `ast.FunctionDef`, `ast.With`, `ast.Try`,
`ast.Import`, `ast.ImportFrom`) plus representative kinds it leaves
untouched (`assign`, `otherStmt`). -/
inductive Stmt where
  | exprStmt (value : Expr)
  | functionDef (name : String) (body : List Stmt)
  | withStmt (items : List Expr) (body : List Stmt)
  | tryStmt (body : List Stmt) (handlers : List Handler) (orelse : List Stmt)
      (finalbody : List Stmt)
  | importStmt (names : List Alias)
  | importFrom (module : String) (names : List Alias)
  | assign (targets : List Expr) (value : Expr)
  | otherStmt

/-- Exception handlers, mirroring `ast.ExceptHandler`. -/
inductive Handler where
  | mk (typ : Option Expr) (hname : Option String) (body : List Stmt)
end

/-- An `ast.Module`: the root node owning the top-level statement sequence. -/
structure Module where
  body : List Stmt

/-- The Python type tag of the node owning a statement sequence, as passed
via `parent_type=type(tree)` in `_modify_ast_subtree`. -/
inductive ParentKind where
  | module
  | functionDef
  | withBlock
  | tryBlock
  | exceptHandler
  deriving DecidableEq, Repr

/-- `ast.Import(names=[ast.alias(name='streamlit', asname='__streamlit__')])`,
from `_build_st_import_statement`. -/
def _build_st_import_statement : Stmt :=
  .importStmt [⟨"streamlit", some "__streamlit__"⟩]

/-- `ast.Call(func=ast.Attribute(attr='_transparent_write',
value=ast.Name(id='__streamlit__', ctx=ast.Load()), ctx=ast.Load()),
args=nodes, keywords=[], kwargs=None, starargs=None)`, from
`_build_st_write_call`. -/
def _build_st_write_call (nodes : List Expr) : Expr :=
  .call
    (.attributeExpr (.name "__streamlit__" .load) "_transparent_write" .load)
    nodes [] none none

/-- `type(e) is ast.Call`. -/
def Expr.isCall : Expr → Bool
  | .call .. => true
  | _ => false

/-- `type(e) is ast.Str`. -/
def Expr.isStr : Expr → Bool
  | .str _ => true
  | _ => false

/-- `type(e) is ast.Tuple`. -/
def Expr.isTuple : Expr → Bool
  | .tuple .. => true
  | _ => false

/-- `type(e) is ast.Name`. -/
def Expr.isName : Expr → Bool
  | .name .. => true
  | _ => false

/-- `_get_st_write_from_expr(node, i, parent_type)`: decides whether the
expression statement with payload `value`, at index `i` of the sequence
owned by a node of kind `parent_type`, is rewritten; returns the
replacement expression, or `none` for "no change". -/
def _get_st_write_from_expr (value : Expr) (i : Nat) (parent_type : ParentKind) :
    Option Expr :=
  -- Don't change function calls
  if value.isCall then none
  -- Don't change Docstring nodes
  else if i == 0 && value.isStr
      && (parent_type == .functionDef || parent_type == .module) then none
  else
    match value with
    -- If tuple, call st.write on the elements (rather than the whole tuple)
    | .tuple elts _ => some (_build_st_write_call elts)
    -- st.write all strings
    | .str s => some (_build_st_write_call [.str s])
    -- st.write all variables, and also print the variable's name
    | .name id ctx =>
        some (_build_st_write_call [.str ("**" ++ id ++ "**"), .name id ctx])
    -- st.write everything else
    | v => some (_build_st_write_call [v])

/-- Instrumentation events recording the order in which the walker begins
processing each region of an `ast.Try` node. -/
inductive Event where
  | handlerBody (j : Nat)
  | finallyBody
  | tryMainBody
  deriving DecidableEq, Repr

mutual
/-- One iteration of the `for i, node in enumerate(body)` loop of
`_modify_ast_subtree`: dispatch on the statement at index `i` of the
sequence owned by a node of kind `parent`. The second component is the
instrumentation trace, recording in order the `ast.Try` regions whose
processing begins during this call; the first component is the statement
stored back at index `i`, exactly as the source computes it. -/
def modifyStmt (parent : ParentKind) (i : Nat) : Stmt → Stmt × List Event
  -- Parse the contents of functions and With statements
  | .functionDef fname body =>
      let r := modifySeq .functionDef 0 body
      (.functionDef fname r.1, r.2)
  | .withStmt items body =>
      let r := modifySeq .withBlock 0 body
      (.withStmt items r.1, r.2)
  -- Parse the contents of try statements: handlers first, then the
  -- finally body (copied back onto the node), then the main body
  | .tryStmt body handlers orelse finalbody =>
      let hr := modifyHandlers 0 handlers
      let fr := modifySeq .tryBlock 0 finalbody
      let br := modifySeq .tryBlock 0 body
      (.tryStmt br.1 hr.1 orelse fr.1,
        hr.2 ++ Event.finallyBody :: fr.2 ++ Event.tryMainBody :: br.2)
  -- Convert expression nodes to st.write
  | .exprStmt value =>
      (match _get_st_write_from_expr value i parent with
        | some v => .exprStmt v
        | none => .exprStmt value,
       [])
  | s => (s, [])

/-- The `for` loop of `_modify_ast_subtree` over the statements of a
sequence, starting at index `i`: each statement is replaced (1-for-1, at
its own index) by the result of `modifyStmt`. -/
def modifySeq (parent : ParentKind) (i : Nat) : List Stmt → List Stmt × List Event
  | [] => ([], [])
  | s :: rest =>
      let r := modifyStmt parent i s
      let rr := modifySeq parent (i + 1) rest
      (r.1 :: rr.1, r.2 ++ rr.2)

/-- The `for j, inner_node in enumerate(node.handlers)` loop: each handler's
body is processed (`_modify_ast_subtree(inner_node)`, so with parent kind
`ast.ExceptHandler`) and the result stored back at handler index `j`. -/
def modifyHandlers (j : Nat) : List Handler → List Handler × List Event
  | [] => ([], [])
  | .mk typ hname body :: rest =>
      let r := modifySeq .exceptHandler 0 body
      let rr := modifyHandlers (j + 1) rest
      (.mk typ hname r.1 :: rr.1, (Event.handlerBody j :: r.2) ++ rr.2)
end

/-- `type(s) in (ast.ImportFrom, ast.Import)`: the import-family test of
`_insert_import_statement`. -/
def Stmt.isImportFamily : Stmt → Bool
  | .importStmt _ => true
  | .importFrom .. => true
  | _ => false

/-- `type(s) is ast.Expr and type(s.value) is ast.Str`: the docstring-shape
test of `_insert_import_statement`. -/
def Stmt.isStrExprStmt : Stmt → Bool
  | .exprStmt (.str _) => true
  | _ => false

/-- `_insert_import_statement(tree)`: inserts the synthetic import into the
root statement sequence at the computed safe index. `body[0]?.any p`
renders Python's `tree.body and p(tree.body[0])` (false on an empty
sequence). -/
def _insert_import_statement (body : List Stmt) : List Stmt :=
  let st_import := _build_st_import_statement
  -- If the 0th node is already an import statement, the Streamlit
  -- one goes below that, so we don't break "from __future__ import".
  if body[0]?.any Stmt.isImportFamily then
    List.insertIdx 1 st_import body
  -- If the 0th node is a docstring and the 1st is an import statement,
  -- put the Streamlit import below those.
  else if decide (1 < body.length)
      && body[0]?.any Stmt.isStrExprStmt
      && body[1]?.any Stmt.isImportFamily then
    List.insertIdx 2 st_import body
  else
    List.insertIdx 0 st_import body

/-- `_modify_ast_subtree(tree, is_root=True)` on an `ast.Module`: walk the
root statement sequence, then inject the import. -/
def modifyModuleRoot (m : Module) : Module × List Event :=
  let r := modifySeq .module 0 m.body
  (⟨_insert_import_statement r.1⟩, r.2)

/-- The value `add_magic` returns: under Python 3 an `ast.Module` tree,
otherwise the original source text string. -/
inductive AddMagicResult where
  | sourceText (code : String)
  | tree (m : Module)

/-- `add_magic(code, script_path)`. Parsing (`ast.parse`) is the external
parser collaborator, abstracted as `parse`; the runtime environment check
`compatibility.is_running_py3()` (code outside this module) is abstracted
as the boolean ` is_running_py3`. -/
def add_magic (code : String) (parse : String → Module)
    ( is_running_py3 : Bool) : AddMagicResult :=
  if is_running_py3 then
    .tree (modifyModuleRoot (parse code)).1
  else
    .sourceText code

/-- The insertion index exactly as the spec's Import Injector policy
describes it (a spec-side definition, kept for comparison with the code's
`_insert_import_statement`): 1 when the first statement is import-family;
2 when there are at least two statements, the first is a string-literal
expression statement and the second is import-family; 0 otherwise. -/
def specImportInsertIndex (body : List Stmt) : Nat :=
  if body[0]?.any Stmt.isImportFamily then 1
  else if decide (2 ≤ body.length)
      && body[0]?.any Stmt.isStrExprStmt
      && body[1]?.any Stmt.isImportFamily then 2
  else 0

/-- The constructor tag ("kind") of an expression node: what
`type(node.value)` observes. -/
inductive ExprKind where
  | call
  | str
  | tuple
  | name
  | attributeK
  | num
  | binOp
  | otherK
  deriving DecidableEq, Repr

/-- Maps an expression to its constructor tag. -/
def exprKind : Expr → ExprKind
  | .call .. => .call
  | .str _ => .str
  | .tuple .. => .tuple
  | .name .. => .name
  | .attributeExpr .. => .attributeK
  | .num _ => .num
  | .binOp .. => .binOp
  | .otherExpr => .otherK

/-- The six first-match-wins rules of the classifier cascade in
`_get_st_write_from_expr`. -/
inductive Rule where
  | noChangeCall
  | noChangeDocstring
  | rewriteTupleElts
  | rewriteString
  | rewriteNameWithLabel
  | rewriteDefault
  deriving DecidableEq, Repr

/-- Which rule of `_get_st_write_from_expr` fires, transcribed from the
source's guard cascade (same guards, same order, first match wins). -/
def ruleOf (value : Expr) (i : Nat) (parent_type : ParentKind) : Rule :=
  if value.isCall then .noChangeCall
  else if i == 0 && value.isStr
      && (parent_type == .functionDef || parent_type == .module) then .noChangeDocstring
  else if value.isTuple then .rewriteTupleElts
  else if value.isStr then .rewriteString
  else if value.isName then .rewriteNameWithLabel
  else .rewriteDefault

/-- The module name bound by a single-alias import statement. -/
def importModuleName : Stmt → Option String
  | .importStmt [a] => some a.name
  | _ => none

/-- The alias (`asname`) bound by a single-alias import statement. -/
def importBoundAlias : Stmt → Option (Option String)
  | .importStmt [a] => some a.asname
  | _ => none

/-- For a call of shape `name.attr(...)`: the receiver's identifier. -/
def calleeBaseName : Expr → Option String
  | .call (.attributeExpr (.name id _) _ _) _ _ _ _ => some id
  | _ => none

/-- For a call of shape `name.attr(...)`: the attribute invoked. -/
def calleeAttrName : Expr → Option String
  | .call (.attributeExpr _ a _) _ _ _ _ => some a
  | _ => none

/-- The positional-argument list of a call node. -/
def callArgs : Expr → Option (List Expr)
  | .call _ args _ _ _ => some args
  | _ => none

/-- The keyword-argument list of a call node. -/
def callKeywords : Expr → Option (List (Option String × Expr))
  | .call _ _ kws _ _ => some kws
  | _ => none

/-- Skeletons record, per statement, the recursive layout of every owned
statement sequence (one entry per statement), so that skeleton equality
says: every sequence anywhere in the subtree has the same number of
statements, position by position. -/
inductive Skeleton where
  | atom
  | block (body : List Skeleton)
  | tryS (body : List Skeleton) (handlers : List (List Skeleton))
      (orelse : List Skeleton) (finalbody : List Skeleton)

mutual
/-- The skeleton of a statement. -/
def Stmt.skeleton : Stmt → Skeleton
  | .functionDef _ body => .block (skeletonSeq body)
  | .withStmt _ body => .block (skeletonSeq body)
  | .tryStmt body handlers orelse finalbody =>
      .tryS (skeletonSeq body) (skeletonHandlers handlers)
        (skeletonSeq orelse) (skeletonSeq finalbody)
  | _ => .atom

/-- The skeletons of the statements of a sequence, in order. -/
def skeletonSeq : List Stmt → List Skeleton
  | [] => []
  | s :: rest => s.skeleton :: skeletonSeq rest

/-- The skeletons of the handler bodies, in order. -/
def skeletonHandlers : List Handler → List (List Skeleton)
  | [] => []
  | .mk _ _ body :: rest => skeletonSeq body :: skeletonHandlers rest
end

/-! ## Helper lemmas -/

/-- Walking a sequence preserves its length. -/
theorem modifySeq_length (parent : ParentKind) (i : Nat) (body : List Stmt) :
    (modifySeq parent i body).1.length = body.length := by
  induction body generalizing i with
  | nil => simp [modifySeq]
  | cons s rest ih => simp [modifySeq, ih]

/-- The walked sequence at index `j` is the walked input statement at
index `j` (with loop index `i + j`). -/
theorem modifySeq_getElem (parent : ParentKind) (i j : Nat) (body : List Stmt) :
    (modifySeq parent i body).1[j]?
      = body[j]?.map fun s => (modifyStmt parent (i + j) s).1 := by
  induction body generalizing i j with
  | nil => simp [modifySeq]
  | cons s rest ih =>
    cases j with
    | zero => simp [modifySeq]
    | succ j =>
      have h := ih (i + 1) j
      simpa [modifySeq, Nat.add_assoc, Nat.add_comm, Nat.add_left_comm] using h

/-- `_modify_ast_subtree(inner_node)` on a single handler: its body is
walked under parent kind `ast.ExceptHandler`. -/
def modifyHandlerNode : Handler → Handler
  | .mk typ hname hbody => .mk typ hname (modifySeq .exceptHandler 0 hbody).1

/-- The walked handler list at index `k` is the input handler at index `k`
with its body walked under parent kind `ast.ExceptHandler`. -/
theorem modifyHandlers_getElem (j k : Nat) (hs : List Handler) :
    (modifyHandlers j hs).1[k]? = hs[k]?.map modifyHandlerNode := by
  induction hs generalizing j k with
  | nil => simp [modifyHandlers]
  | cons h rest ih =>
    cases h with
    | mk typ hname hbody =>
      cases k with
      | zero => simp [modifyHandlers, modifyHandlerNode]
      | succ k => simpa [modifyHandlers] using ih (j + 1) k

/-- Walking a statement preserves its skeleton: every owned statement
sequence anywhere in the subtree keeps its exact layout. -/
theorem modifyStmt_skeleton (parent : ParentKind) (i : Nat) (s : Stmt) :
    ((modifyStmt parent i s).1).skeleton = s.skeleton := by
  refine modifyStmt.induct
    (fun parent i s => ((modifyStmt parent i s).1).skeleton = s.skeleton)
    (fun j hs => skeletonHandlers (modifyHandlers j hs).1 = skeletonHandlers hs)
    (fun parent i body => skeletonSeq (modifySeq parent i body).1 = skeletonSeq body)
    ?_ ?_ ?_ ?_ ?_ ?_ ?_ ?_ ?_ parent i s
  · intro parent i fname body hbody
    simp [modifyStmt, Stmt.skeleton, hbody]
  · intro parent i items body hbody
    simp [modifyStmt, Stmt.skeleton, hbody]
  · intro parent i body handlers orelse finalbody hh hf hb
    simp [modifyStmt, Stmt.skeleton, hh, hf, hb]
  · intro parent i value
    simp only [modifyStmt]
    cases _get_st_write_from_expr value i parent <;> simp [Stmt.skeleton]
  · intro parent i s h1 h2 h3 h4
    cases s with
    | functionDef fname body => exact absurd rfl (h1 fname body)
    | withStmt items body => exact absurd rfl (h2 items body)
    | tryStmt body handlers orelse finalbody => exact absurd rfl (h3 body handlers orelse finalbody)
    | exprStmt value => exact absurd rfl (h4 value)
    | importStmt names => simp [modifyStmt, Stmt.skeleton]
    | importFrom m names => simp [modifyStmt, Stmt.skeleton]
    | assign targets value => simp [modifyStmt, Stmt.skeleton]
    | otherStmt => simp [modifyStmt, Stmt.skeleton]
  · intro parent i
    simp [modifySeq]
  · intro parent i s rest hs hrest
    simp [modifySeq, skeletonSeq, hs, hrest]
  · intro j
    simp [modifyHandlers]
  · intro j typ hname body rest hbody hrest
    simp [modifyHandlers, skeletonHandlers, hbody, hrest]

/-- Walking a sequence preserves its skeleton list. -/
theorem modifySeq_skeleton (parent : ParentKind) (i : Nat) (body : List Stmt) :
    skeletonSeq (modifySeq parent i body).1 = skeletonSeq body := by
  induction body generalizing i with
  | nil => simp [modifySeq]
  | cons s rest ih =>
    simp [modifySeq, skeletonSeq, modifyStmt_skeleton, ih]

/-- `_insert_import_statement` grows the sequence by exactly one. -/
theorem insert_import_length (body : List Stmt) :
    (_insert_import_statement body).length = body.length + 1 := by
  unfold _insert_import_statement
  split
  · rename_i h
    have hne : body ≠ [] := by
      intro he; subst he; simp at h
    have h1 : 1 ≤ body.length := by
      cases body with
      | nil => exact absurd rfl hne
      | cons a l => simp
    exact List.length_insertIdx 1 body h1
  · split
    · rename_i h2
      have hlen : 1 < body.length := by
        have := (Bool.and_eq_true _ _).mp ((Bool.and_eq_true _ _).mp h2).1
        simpa using this.1
      exact List.length_insertIdx 2 body hlen
    · simp [List.insertIdx_zero]

/-! ## Claim theorems -/

/-- Claim C1: the import injector inserts the synthetic import at index 1
when the first statement is import-family; at index 2 when there are at
least two statements, the first is a string-literal expression statement
and the second is import-family; and at index 0 in every other case
(including an empty root sequence); exactly one statement, the synthetic
one, is inserted per call. -/
theorem insert_import_index_policy (body : List Stmt) :
    _insert_import_statement body
      = List.insertIdx (specImportInsertIndex body) _build_st_import_statement body
    ∧ (_insert_import_statement body).length = body.length + 1
    ∧ (_insert_import_statement body).Perm (_build_st_import_statement :: body) := by
  refine ⟨?_, insert_import_length body, ?_⟩
  · unfold _insert_import_statement specImportInsertIndex
    split
    · rename_i h
      simp only [h, if_pos]
    · rename_i h
      simp only [eq_false_of_ne_true h, if_neg, Bool.false_eq_true, not_false_iff]
      split
      · rename_i h2
        have h2' : (decide (2 ≤ body.length) && body[0]?.any Stmt.isStrExprStmt
            && body[1]?.any Stmt.isImportFamily) = true := by
          revert h2
          cases body with
          | nil => simp
          | cons a l =>
            cases l with
            | nil => simp
            | cons b l2 => simp [Nat.lt_iff_add_one_le, Nat.succ_le_succ_iff]
        simp only [h2', if_pos]
      · rename_i h2
        have h2' : (decide (2 ≤ body.length) && body[0]?.any Stmt.isStrExprStmt
            && body[1]?.any Stmt.isImportFamily) = false := by
          revert h2
          cases body with
          | nil => simp
          | cons a l =>
            cases l with
            | nil => simp
            | cons b l2 => simp [Nat.lt_iff_add_one_le, Nat.succ_le_succ_iff]
        simp only [h2', if_neg, Bool.false_eq_true, not_false_iff]
  · unfold _insert_import_statement
    split
    · rename_i h
      have h1 : 1 ≤ body.length := by
        cases body with
        | nil => simp at h
        | cons a l => simp
      exact List.perm_insertIdx _ _ h1
    · split
      · rename_i h2
        have hlen : 1 < body.length := by
          have := (Bool.and_eq_true _ _).mp ((Bool.and_eq_true _ _).mp h2).1
          simpa using this.1
        exact List.perm_insertIdx _ _ hlen
      · simp [List.insertIdx_zero]

/-- Claim C2: the pass is 1-for-1 at the statement level: every processed
sequence (function bodies, with-bodies, try bodies, handler bodies,
finally bodies — all captured by the skeleton) keeps exactly the same
number of statements in the same order, the element at index `j` of a
walked sequence being the walked input element at index `j`; the only
length change in the whole tree is the root sequence, which grows by
exactly one statement. -/
theorem statement_count_invariant :
    (∀ (parent : ParentKind) (i : Nat) (s : Stmt),
        ((modifyStmt parent i s).1).skeleton = s.skeleton)
    ∧ (∀ (parent : ParentKind) (i : Nat) (body : List Stmt),
        (modifySeq parent i body).1.length = body.length
        ∧ skeletonSeq (modifySeq parent i body).1 = skeletonSeq body
        ∧ ∀ j : Nat, (modifySeq parent i body).1[j]?
            = body[j]?.map fun s => (modifyStmt parent (i + j) s).1)
    ∧ (∀ m : Module, (modifyModuleRoot m).1.body.length = m.body.length + 1) := by
  refine ⟨modifyStmt_skeleton, ?_, ?_⟩
  · intro parent i body
    exact ⟨modifySeq_length parent i body, modifySeq_skeleton parent i body,
      fun j => modifySeq_getElem parent i j body⟩
  · intro m
    show (_insert_import_statement (modifySeq .module 0 m.body).1).length = m.body.length + 1
    rw [insert_import_length, modifySeq_length]

/-- Claim C3: an expression statement whose expression is a `Call` node is
classified "no change" and is left unchanged by the pass, at every index
and under every owning-node kind. -/
theorem call_expression_statements_unchanged :
    ∀ (func : Expr) (args : List Expr) (keywords : List (Option String × Expr))
      (kwargs starargs : Option Expr) (i : Nat) (parent : ParentKind),
      _get_st_write_from_expr (.call func args keywords kwargs starargs) i parent = none
      ∧ (modifyStmt parent i (.exprStmt (.call func args keywords kwargs starargs))).1
          = .exprStmt (.call func args keywords kwargs starargs) := by
  intro func args keywords kwargs starargs i parent
  constructor
  · simp [_get_st_write_from_expr, Expr.isCall]
  · simp [modifyStmt, _get_st_write_from_expr, Expr.isCall]

/-- Claim C4: a bare `Tuple` expression statement is rewritten to a display
call whose positional-argument list is exactly the tuple's elements, in
order — not the tuple node itself as a single argument. -/
theorem tuple_rewrite_uses_elements :
    ∀ (elts : List Expr) (ctx : ExprCtx) (i : Nat) (parent : ParentKind),
      _get_st_write_from_expr (.tuple elts ctx) i parent
        = some (_build_st_write_call elts)
      ∧ (modifyStmt parent i (.exprStmt (.tuple elts ctx))).1
          = .exprStmt (_build_st_write_call elts)
      ∧ callArgs (_build_st_write_call elts) = some elts
      ∧ elts ≠ [Expr.tuple elts ctx] := by
  intro elts ctx i parent
  refine ⟨?_, ?_, rfl, ?_⟩
  · simp [_get_st_write_from_expr, Expr.isCall, Expr.isStr]
  · simp [modifyStmt, _get_st_write_from_expr, Expr.isCall, Expr.isStr]
  · intro h
    have h2 := congrArg sizeOf h
    simp at h2
    omega

/-- Witness for C4 at a concrete two-element tuple. -/
theorem tuple_rewrite_uses_elements_witness :
    _get_st_write_from_expr (.tuple [.num 1, .num 2] .load) 3 .withBlock
      = some (_build_st_write_call [.num 1, .num 2]) :=
  (tuple_rewrite_uses_elements [.num 1, .num 2] .load 3 .withBlock).1

/-- Claim C5: a bare identifier statement `n` is rewritten to a display
call with exactly two positional arguments: first the synthesized string
literal `**n**`, second the original identifier expression itself. -/
theorem identifier_rewrite_label_and_value :
    ∀ (n : String) (ctx : ExprCtx) (i : Nat) (parent : ParentKind),
      _get_st_write_from_expr (.name n ctx) i parent
        = some (_build_st_write_call [.str ("**" ++ n ++ "**"), .name n ctx])
      ∧ (modifyStmt parent i (.exprStmt (.name n ctx))).1
          = .exprStmt (_build_st_write_call [.str ("**" ++ n ++ "**"), .name n ctx])
      ∧ callArgs (_build_st_write_call [.str ("**" ++ n ++ "**"), .name n ctx])
          = some [.str ("**" ++ n ++ "**"), .name n ctx] := by
  intro n ctx i parent
  refine ⟨?_, ?_, rfl⟩
  · simp [_get_st_write_from_expr, Expr.isCall, Expr.isStr]
  · simp [modifyStmt, _get_st_write_from_expr, Expr.isCall, Expr.isStr]

/-- Claim C6: a string-literal expression statement at index 0 is exempted
(unchanged) exactly when the owning node is a function definition or the
program root; at index 0 of any other block kind it is rewritten to a
display call on the string. -/
theorem docstring_exemption_scope :
    ∀ (s : String) (parent : ParentKind),
      _get_st_write_from_expr (.str s) 0 parent
        = (if parent = .functionDef ∨ parent = .module then none
           else some (_build_st_write_call [.str s]))
      ∧ (modifyStmt parent 0 (.exprStmt (.str s))).1
          = (if parent = .functionDef ∨ parent = .module then .exprStmt (.str s)
             else .exprStmt (_build_st_write_call [.str s])) := by
  intro s parent
  cases parent <;>
    simp [modifyStmt, _get_st_write_from_expr, Expr.isCall, Expr.isStr]

/-- Claim C7: on an `ast.Try` statement the walker processes the
exception-handler bodies first (each result stored back at its handler
index), then the finally body (the walked sequence copied back onto the
try node), and only afterwards the try statement's own main body — the
instrumentation trace lists the handler events, then `finallyBody`, then
`tryMainBody` — and the processed try node is stored back at its index in
the owning sequence. -/
theorem try_processing_order_and_storeback :
    ∀ (body : List Stmt) (handlers : List Handler) (orelse finalbody : List Stmt)
      (parent : ParentKind) (i : Nat),
      modifyStmt parent i (.tryStmt body handlers orelse finalbody)
        = (.tryStmt (modifySeq .tryBlock 0 body).1 (modifyHandlers 0 handlers).1 orelse
              (modifySeq .tryBlock 0 finalbody).1,
           (modifyHandlers 0 handlers).2
             ++ Event.finallyBody :: (modifySeq .tryBlock 0 finalbody).2
             ++ Event.tryMainBody :: (modifySeq .tryBlock 0 body).2)
      ∧ (∀ k : Nat, (modifyHandlers 0 handlers).1[k]? = handlers[k]?.map modifyHandlerNode)
      ∧ (∀ (l : List Stmt) (j : Nat),
            l[j]? = some (.tryStmt body handlers orelse finalbody) →
            (modifySeq parent 0 l).1[j]?
              = some (modifyStmt parent j (.tryStmt body handlers orelse finalbody)).1) := by
  intro body handlers orelse finalbody parent i
  refine ⟨rfl, fun k => modifyHandlers_getElem 0 k handlers, ?_⟩
  intro l j hj
  rw [modifySeq_getElem, hj]
  simp

/-- Witness for C7 at a concrete one-statement sequence holding a try with
one handler. -/
theorem try_processing_order_and_storeback_witness :
    (modifySeq .module 0
        [.tryStmt [.exprStmt (.num 1)] [.mk none none []] [] []]).1[0]?
      = some (modifyStmt .module 0
          (.tryStmt [.exprStmt (.num 1)] [.mk none none []] [] [])).1 :=
  (try_processing_order_and_storeback [.exprStmt (.num 1)] [.mk none none []] [] []
    .module 0).2.2 [.tryStmt [.exprStmt (.num 1)] [.mk none none []] [] []] 0 rfl

/-- Claim C8: classification is a pure function of the statement's
expression, its index and the owning-node kind; which rule of the cascade
fires depends only on the expression's constructor kind together with the
index and owning-node kind, and the classifier returns "no change" exactly
when one of the two no-change rules fires. -/
theorem classification_depends_only_on_shape :
    (∀ (e1 e2 : Expr) (i : Nat) (parent : ParentKind),
        exprKind e1 = exprKind e2 → ruleOf e1 i parent = ruleOf e2 i parent)
    ∧ (∀ (e : Expr) (i : Nat) (parent : ParentKind),
        _get_st_write_from_expr e i parent = none
          ↔ (ruleOf e i parent = .noChangeCall ∨ ruleOf e i parent = .noChangeDocstring)) := by
  constructor
  · intro e1 e2 i parent h
    cases e1 <;> cases e2 <;>
      simp_all [exprKind, ruleOf, Expr.isCall, Expr.isStr, Expr.isTuple, Expr.isName]
  · intro e i parent
    cases e <;>
      simp [_get_st_write_from_expr, ruleOf, Expr.isCall, Expr.isStr,
        Expr.isTuple, Expr.isName]
    split <;> simp

/-- Witness for C8: two distinct numeric literals share a kind, hence a
rule; and the classifier's no-change outcomes at a concrete docstring. -/
theorem classification_depends_only_on_shape_witness :
    ruleOf (.num 3) 1 .module = ruleOf (.num 7) 1 .module
    ∧ (_get_st_write_from_expr (.str "d") 0 .module = none
        ↔ (ruleOf (.str "d") 0 .module = .noChangeCall
            ∨ ruleOf (.str "d") 0 .module = .noChangeDocstring)) :=
  ⟨classification_depends_only_on_shape.1 (.num 3) (.num 7) 1 .module rfl,
   classification_depends_only_on_shape.2 (.str "d") 0 .module⟩

/-- Claim C9: when the environment is not Python 3, `add_magic` returns the
original source text string unchanged, for every parser; under Python 3 it
returns the rewritten tree obtained by parsing and walking. -/
theorem add_magic_py3_gate :
    ∀ (code : String) (parse : String → Module),
      add_magic code parse false = .sourceText code
      ∧ add_magic code parse true = .tree (modifyModuleRoot (parse code)).1 := by
  intro code parse
  exact ⟨rfl, rfl⟩

/-- Claim C10: the injected import binds module `streamlit` under alias
`__streamlit__`, and every display call the rewriter constructs invokes
attribute `_transparent_write` on a name node whose identifier is exactly
that same alias, with an empty keyword-argument list (and the given nodes
as positional arguments). -/
theorem import_write_naming_contract :
    importModuleName _build_st_import_statement = some "streamlit"
    ∧ (∀ nodes : List Expr,
        importBoundAlias _build_st_import_statement
          = some (calleeBaseName (_build_st_write_call nodes))
        ∧ calleeAttrName (_build_st_write_call nodes) = some "_transparent_write"
        ∧ callKeywords (_build_st_write_call nodes) = some []
        ∧ callArgs (_build_st_write_call nodes) = some nodes) := by
  exact ⟨rfl, fun nodes => ⟨rfl, rfl, rfl, rfl⟩⟩

end Magic
